import Mathlib

/-!
Verification of the network-constrained Lasso (ncLasso) core of the
`2018_DS3_tutorial` notebook (`tutorial_1_simulated_data.ipynb`).

The embedding uses exact rational arithmetic (`ℚ`) in place of floating
point.  The numpy square root `np.sqrt` is abstracted as a function
parameter `rsqrt : ℚ → ℚ`; theorems that need particular square-root
values state them as hypotheses (e.g. `rsqrt 0 = 0`, `rsqrt (1 + l2) ^ 2
= 1 + l2`), all satisfied by the concrete `ratSqrt` below on the inputs
used by the witnesses.  The external symmetric eigensolver
(`np.linalg.eigh`) and the external Lasso solver (`sklearn`) are
collaborators outside the repository; they appear as function parameters,
constrained only by their documented contracts where a theorem needs it.

Matrices are `Matrix (Fin n) (Fin p) ℚ`; the row-stacked augmented design
uses the sum index `Fin n ⊕ Fin q` (`Matrix.fromRows`, the embedding of
`np.vstack`).
-/

namespace DS3

open Matrix

/-- Error taxonomy of the specification (section 7): shape mismatches,
invalid hyperparameters, numerical failures. -/
inductive EstimatorError where
  | shapeError : EstimatorError
  | configurationError : EstimatorError
  | numericalError : EstimatorError
deriving DecidableEq

/-- Integer square root (largest `k` with `k * k ≤ n`), defined by bounded
search so that it evaluates by kernel reduction. -/
def intSqrt (n : ℕ) : ℕ := Nat.findGreatest (fun k => k * k ≤ n) n

/-- Exact rational square root used to instantiate the abstract `rsqrt`
parameter in witnesses: on a rational whose numerator and denominator are
perfect squares it returns the exact square root (so `ratSqrt 0 = 0`,
`ratSqrt 1 = 1`, `ratSqrt 4 = 2`). -/
def ratSqrt (q : ℚ) : ℚ := (intSqrt q.num.toNat : ℚ) / (intSqrt q.den : ℚ)

/-- Degree vector of the adjacency matrix: `degree = np.sum(W, axis=0)`
(column sums; equal to row sums for the symmetric `W` of the notebook). -/
def degree {p : ℕ} (W : Matrix (Fin p) (Fin p) ℚ) : Fin p → ℚ :=
  fun j => ∑ i, W i j

/-- Graph Laplacian of the notebook: `L = np.diag(degree) - W`. -/
def lapL {p : ℕ} (W : Matrix (Fin p) (Fin p) ℚ) : Matrix (Fin p) (Fin p) ℚ :=
  Matrix.diagonal (degree W) - W

/-- Eigenvalue clamp of the notebook: `evals = np.maximum(0, evals)`
("correct for numerical errors: eigenvalues of 0 might be computed as
small negative numbers"). -/
def clampEvals {p : ℕ} (evals : Fin p → ℚ) : Fin p → ℚ :=
  fun i => max 0 (evals i)

/-- Spectral square root of the Laplacian, from the notebook:
`S = np.dot(np.diag(np.sqrt(evals)), evecs.T)` applied after the clamp,
with `np.sqrt` abstracted as `rsqrt`. -/
def lapSqrtS {p : ℕ} (rsqrt : ℚ → ℚ) (evals : Fin p → ℚ)
    (evecs : Matrix (Fin p) (Fin p) ℚ) : Matrix (Fin p) (Fin p) ℚ :=
  Matrix.diagonal (fun i => rsqrt (clampEvals evals i)) * evecsᵀ

/-- Straight-line spectral builder of the notebook (cells computing
`degree`, `L`, `eigh`, the clamp and `S`): it performs no validation of
`W` and has no error branch of its own; the external eigensolver is the
parameter `eigh`.  The `Except` codomain records that the repository code
never raises an error it defines itself. -/
def spectralBuilder {p : ℕ}
    (eigh : Matrix (Fin p) (Fin p) ℚ → (Fin p → ℚ) × Matrix (Fin p) (Fin p) ℚ)
    (rsqrt : ℚ → ℚ) (W : Matrix (Fin p) (Fin p) ℚ) :
    Except EstimatorError (Matrix (Fin p) (Fin p) ℚ) :=
  let L := lapL W
  let ev := eigh L
  Except.ok (lapSqrtS rsqrt ev.1 ev.2)

/-- Row-augmented design matrix of the Li-Li transformation.  Modelled
from the spec: the notebook leaves `X_new` as a TODO; spec section 4.2
stacks `X / √(1+λ2)` (n rows) on top of `√λ2 · S / √(1+λ2)` (q rows). -/
def augmentedX {n q p : ℕ} (rsqrt : ℚ → ℚ) (lambda2 : ℚ)
    (S : Matrix (Fin q) (Fin p) ℚ) (X : Matrix (Fin n) (Fin p) ℚ) :
    Matrix (Fin n ⊕ Fin q) (Fin p) ℚ :=
  Matrix.fromRows ((rsqrt (1 + lambda2))⁻¹ • X) ((rsqrt lambda2 / rsqrt (1 + lambda2)) • S)

/-- Augmented response.  Modelled from the spec: the notebook leaves
`y_new` as a TODO; spec section 4.2 stacks `y` on top of `q` zeros. -/
def augmentedY {n : ℕ} (q : ℕ) (y : Fin n → ℚ) : Fin n ⊕ Fin q → ℚ :=
  Sum.elim y 0

/-- Coefficient recovery.  Modelled from the spec: the notebook leaves
`self.coef_` as a TODO; spec section 4.2 divides the inner coefficients by
`√(1+λ2)`. -/
def recoverCoef {p : ℕ} (rsqrt : ℚ → ℚ) (lambda2 : ℚ) (b : Fin p → ℚ) : Fin p → ℚ :=
  fun j => b j / rsqrt (1 + lambda2)

/-- The `ncLasso.fit` method.  The notebook skeleton constructs the inner
solver as `linear_model.Lasso(fit_intercept=True, alpha=self.lambda1)` and
then calls `self.lasso.fit(X_new, y_new)`, so the L1 strength handed to
the inner solver is `lambda1` itself; the augmentation and the coefficient
recovery are modelled from the spec (they are TODOs in the notebook), and
the intercept is passed through from the inner solver. -/
def ncLassoFit {n q p : ℕ} (rsqrt : ℚ → ℚ)
    (solver : Matrix (Fin n ⊕ Fin q) (Fin p) ℚ → (Fin n ⊕ Fin q → ℚ) → ℚ → (Fin p → ℚ) × ℚ)
    (S : Matrix (Fin q) (Fin p) ℚ) (X : Matrix (Fin n) (Fin p) ℚ) (y : Fin n → ℚ)
    (lambda1 lambda2 : ℚ) : (Fin p → ℚ) × ℚ :=
  let out := solver (augmentedX rsqrt lambda2 S X) (augmentedY q y) lambda1
  (recoverCoef rsqrt lambda2 out.1, out.2)

/-- Probe solver that ignores the data and reports the L1 strength it was
handed through the (pass-through) intercept. -/
def probeSolver {n q p : ℕ} :
    Matrix (Fin n ⊕ Fin q) (Fin p) ℚ → (Fin n ⊕ Fin q → ℚ) → ℚ → (Fin p → ℚ) × ℚ :=
  fun _ _ alpha => (fun _ => 0, alpha)

/-- L1 norm of a coefficient vector. -/
def l1Norm {p : ℕ} (b : Fin p → ℚ) : ℚ := ∑ j, |b j|

/-- Objective of the external plain Lasso solver on `(X, y)` with L1
strength `alpha` (spec section 6: least squares plus L1, intercept `b0`).
Modelled from the spec: the solver itself is an external collaborator. -/
def lassoObjective {n p : ℕ} (X : Matrix (Fin n) (Fin p) ℚ) (y : Fin n → ℚ)
    (alpha : ℚ) (b : Fin p → ℚ) (b0 : ℚ) : ℚ :=
  (∑ i, (y i - (X *ᵥ b) i - b0) ^ 2) + alpha * l1Norm b

/-- Objective of the inner Lasso solver on the augmented problem, with the
intercept applied to the real rows only.  Modelled from the spec (section
4.2: the synthetic rows must not influence the intercept). -/
def innerObjective {n q p : ℕ} (rsqrt : ℚ → ℚ) (lambda2 : ℚ)
    (S : Matrix (Fin q) (Fin p) ℚ) (X : Matrix (Fin n) (Fin p) ℚ) (y : Fin n → ℚ)
    (alpha : ℚ) (b : Fin p → ℚ) (b0 : ℚ) : ℚ :=
  (∑ i, (augmentedY q y (Sum.inl i) - (augmentedX rsqrt lambda2 S X *ᵥ b) (Sum.inl i) - b0) ^ 2)
  + (∑ k, (augmentedY q y (Sum.inr k) - (augmentedX rsqrt lambda2 S X *ᵥ b) (Sum.inr k)) ^ 2)
  + alpha * l1Norm b

/-- Concrete two-sample, one-feature design used in the C8 refutation. -/
def Xex : Matrix (Fin 2) (Fin 1) ℚ := Matrix.of ![![1], ![-1]]

/-- Concrete response for `Xex`. -/
def yex : Fin 2 → ℚ := ![1, -1]

/-- Mutable estimator state of the `ncLasso` scikit-learn class: the
configuration fields set in `__init__` and the attributes `self.lasso`,
`self.coef_`, `self.intercept_` that `fit` assigns (absent before). -/
structure NcLasso where
  LapSqrt : List (List ℚ)
  lambda1 : ℚ
  lambda2 : ℚ
  lasso : Option ℚ
  coef_ : Option (List ℚ)
  intercept_ : Option ℚ

/-- Column count of a list-of-rows matrix (length of the first row). -/
def ncols (M : List (List ℚ)) : Nat := (M.headD []).length

/-- The `fit` method over untyped (list) matrices.  The skeleton lines of
the notebook are kept: `self.lasso` is assigned a fresh inner solver with
`alpha = self.lambda1` before anything else, and the inner solver is
invoked with that strength.  Modelled from the spec: the shape guard
(section 4.2 rejects `S.columns ≠ X.columns` and `X.rows ≠ len(y)` before
delegating), the augmentation, and the coefficient recovery (TODOs in the
notebook). -/
def ncFit (rsqrt : ℚ → ℚ) (solver : List (List ℚ) → List ℚ → ℚ → List ℚ × ℚ)
    (st : NcLasso) (X : List (List ℚ)) (y : List ℚ) : NcLasso × Option EstimatorError :=
  if ncols st.LapSqrt ≠ ncols X ∨ X.length ≠ y.length then
    ({ st with lasso := some st.lambda1 }, some EstimatorError.shapeError)
  else
    let Xnew := X.map (fun row => row.map fun a => a / rsqrt (1 + st.lambda2))
      ++ st.LapSqrt.map (fun row => row.map fun a => rsqrt st.lambda2 * a / rsqrt (1 + st.lambda2))
    let ynew := y ++ List.replicate st.LapSqrt.length 0
    let out := solver Xnew ynew st.lambda1
    ({ st with
        lasso := some st.lambda1
        coef_ := some (out.1.map fun a => a / rsqrt (1 + st.lambda2))
        intercept_ := some out.2 }, none)

/-- Dot product of two rows. -/
def dotL (row c : List ℚ) : ℚ := (List.zipWith (fun a b => a * b) row c).sum

/-- The `predict` method.  Modelled from the spec: the notebook leaves the
body as a TODO; spec section 4.2 makes it the pure linear map
`X · β + intercept`, a `ShapeError` before `fit` or on a feature-count
mismatch. -/
def ncPredict (st : NcLasso) (X : List (List ℚ)) : Except EstimatorError (List ℚ) :=
  match st.coef_, st.intercept_ with
  | some c, some b =>
    if X.all fun row => row.length == c.length then
      Except.ok (X.map fun row => dotL row c + b)
    else Except.error EstimatorError.shapeError
  | _, _ => Except.error EstimatorError.shapeError

/-- Value of the witness square root at `0`. -/
lemma ratSqrt_zero : ratSqrt 0 = 0 := by
  have h1 : intSqrt (0 : ℚ).num.toNat = 0 := by decide
  have h2 : intSqrt (0 : ℚ).den = 1 := by decide
  rw [ratSqrt, h1, h2]
  norm_num

/-- Value of the witness square root at `1`. -/
lemma ratSqrt_one : ratSqrt 1 = 1 := by
  have h1 : intSqrt (1 : ℚ).num.toNat = 1 := by decide
  have h2 : intSqrt (1 : ℚ).den = 1 := by decide
  rw [ratSqrt, h1, h2]
  norm_num

/-- Value of the witness square root at `4`. -/
lemma ratSqrt_four : ratSqrt 4 = 2 := by
  have h1 : intSqrt (4 : ℚ).num.toNat = 2 := by decide
  have h2 : intSqrt (4 : ℚ).den = 1 := by decide
  rw [ratSqrt, h1, h2]
  norm_num

/-- Action of the Laplacian on a vector, in coordinates. -/
lemma lapL_mulVec {p : ℕ} (W : Matrix (Fin p) (Fin p) ℚ) (x : Fin p → ℚ) :
    lapL W *ᵥ x = fun i => degree W i * x i - ∑ j, W i j * x j := by
  funext i
  rw [lapL, Matrix.sub_mulVec]
  simp only [Pi.sub_apply, Matrix.mulVec_diagonal]
  congr 1

/-- Pointwise symmetry from matrix symmetry. -/
lemma symm_apply {p : ℕ} {W : Matrix (Fin p) (Fin p) ℚ} (hsym : Wᵀ = W)
    (i j : Fin p) : W j i = W i j := by
  conv_lhs => rw [← hsym]
  simp [Matrix.transpose_apply]

/-- Quadratic-form identity behind positive semidefiniteness of `lapL`:
twice the quadratic form is the weighted sum of squared coordinate
differences over all ordered pairs. -/
lemma quadform_identity {p : ℕ} (W : Matrix (Fin p) (Fin p) ℚ) (hsym : Wᵀ = W)
    (x : Fin p → ℚ) :
    2 * (x ⬝ᵥ (lapL W *ᵥ x)) = ∑ i, ∑ j, W i j * (x i - x j) ^ 2 := by
  have hptw : ∀ i j, W j i = W i j := symm_apply hsym
  have hL : x ⬝ᵥ (lapL W *ᵥ x)
      = (∑ i, degree W i * x i ^ 2) - ∑ i, ∑ j, W i j * x i * x j := by
    rw [lapL_mulVec]
    simp only [Matrix.dotProduct, mul_sub, Finset.sum_sub_distrib, Finset.mul_sum]
    congr 1
    · exact Finset.sum_congr rfl fun i _ => by ring
    · exact Finset.sum_congr rfl fun i _ => Finset.sum_congr rfl fun j _ => by ring
  have hA : (∑ i, ∑ j, W i j * x i ^ 2) = ∑ i, degree W i * x i ^ 2 := by
    refine Finset.sum_congr rfl fun i _ => ?_
    have : (∑ j, W i j * x i ^ 2) = (∑ j, W i j) * x i ^ 2 := by
      rw [Finset.sum_mul]
    rw [this]
    have hdeg : (∑ j, W i j) = degree W i := by
      unfold degree
      exact Finset.sum_congr rfl fun j _ => hptw j i
    rw [hdeg]
  have hB : (∑ i, ∑ j, W i j * x j ^ 2) = ∑ i, degree W i * x i ^ 2 := by
    rw [Finset.sum_comm]
    refine Finset.sum_congr rfl fun j _ => ?_
    rw [← Finset.sum_mul]
    rfl
  have hexp : (∑ i, ∑ j, W i j * (x i - x j) ^ 2)
      = (∑ i, ∑ j, W i j * x i ^ 2) + (∑ i, ∑ j, W i j * x j ^ 2)
        - 2 * ∑ i, ∑ j, W i j * x i * x j := by
    simp only [← Finset.sum_add_distrib, ← Finset.sum_sub_distrib, Finset.mul_sum]
    refine Finset.sum_congr rfl fun i _ => Finset.sum_congr rfl fun j _ => by ring
  rw [hexp, hA, hB, hL]
  ring

/-- Positive semidefiniteness of the constructed Laplacian. -/
lemma quadform_nonneg {p : ℕ} (W : Matrix (Fin p) (Fin p) ℚ) (hsym : Wᵀ = W)
    (hnn : ∀ i j, 0 ≤ W i j) (x : Fin p → ℚ) :
    0 ≤ x ⬝ᵥ (lapL W *ᵥ x) := by
  have h2 := quadform_identity W hsym x
  have hpos : 0 ≤ ∑ i, ∑ j, W i j * (x i - x j) ^ 2 := by
    refine Finset.sum_nonneg fun i _ => Finset.sum_nonneg fun j _ => ?_
    exact mul_nonneg (hnn i j) (sq_nonneg _)
  nlinarith [h2, hpos]

/-- Row sums of the constructed Laplacian vanish for symmetric `W`. -/
lemma lapL_mulVec_one {p : ℕ} (W : Matrix (Fin p) (Fin p) ℚ) (hsym : Wᵀ = W) :
    lapL W *ᵥ (fun _ => 1) = 0 := by
  funext i
  rw [lapL_mulVec]
  have hdeg : degree W i = ∑ j, W i j := by
    unfold degree
    exact Finset.sum_congr rfl fun j _ => symm_apply hsym i j
  simp [hdeg]

/-- Claim C3: for every symmetric non-negative `p × p` matrix `W` with zero
diagonal, the constructed Laplacian `L = diag(rowsum(W)) - W` annihilates
the all-ones vector (every row sums to zero), its quadratic form is
non-negative (positive semidefiniteness), and consequently every
eigenvalue of `L` is non-negative (hence `≥ -ε` for any `ε ≥ 0`). -/
theorem lapL_rowsum_zero_and_psd {p : ℕ} (W : Matrix (Fin p) (Fin p) ℚ)
    (hsym : Wᵀ = W) (hnn : ∀ i j, 0 ≤ W i j) (_hdiag : ∀ i, W i i = 0) :
    lapL W *ᵥ (fun _ => 1) = 0 ∧
    (∀ x : Fin p → ℚ, 0 ≤ x ⬝ᵥ (lapL W *ᵥ x)) ∧
    (∀ (mu : ℚ) (v : Fin p → ℚ), v ≠ 0 → lapL W *ᵥ v = mu • v → 0 ≤ mu) := by
  refine ⟨lapL_mulVec_one W hsym, quadform_nonneg W hsym hnn, ?_⟩
  intro mu v hv hev
  have hq : 0 ≤ v ⬝ᵥ (lapL W *ᵥ v) := quadform_nonneg W hsym hnn v
  rw [hev] at hq
  have hsmul : v ⬝ᵥ (mu • v) = mu * (v ⬝ᵥ v) := by
    simp [Matrix.dotProduct, Finset.mul_sum]
    exact Finset.sum_congr rfl fun i _ => by ring
  rw [hsmul] at hq
  have hvpos : 0 < v ⬝ᵥ v := by
    obtain ⟨i0, hi0⟩ := Function.ne_iff.mp hv
    have hne : v i0 ^ 2 ≠ 0 := pow_ne_zero 2 hi0
    have hgt : 0 < v i0 ^ 2 := lt_of_le_of_ne (sq_nonneg _) (Ne.symm hne)
    have : (0 : ℚ) < ∑ i, v i * v i := by
      refine Finset.sum_pos' (fun i _ => mul_self_nonneg (v i)) ⟨i0, Finset.mem_univ i0, ?_⟩
      nlinarith [hgt]
    simpa [Matrix.dotProduct] using this
  by_contra hneg
  push_neg at hneg
  nlinarith [hq, hvpos, hneg]

/-- Witness for C3 on a concrete adjacency matrix (the 2-vertex graph with
a unit edge). -/
theorem lapL_rowsum_zero_and_psd_witness :
    (Matrix.of ![![0, 1], ![1, 0]] : Matrix (Fin 2) (Fin 2) ℚ)ᵀ
        = Matrix.of ![![0, 1], ![1, 0]] ∧
    (∀ i j, (0 : ℚ) ≤ (Matrix.of ![![0, 1], ![1, 0]] : Matrix (Fin 2) (Fin 2) ℚ) i j) ∧
    (∀ i, (Matrix.of ![![0, 1], ![1, 0]] : Matrix (Fin 2) (Fin 2) ℚ) i i = 0) ∧
    (lapL (Matrix.of ![![0, 1], ![1, 0]]) *ᵥ (fun _ => 1) = 0 ∧
      (∀ x : Fin 2 → ℚ, 0 ≤ x ⬝ᵥ (lapL (Matrix.of ![![0, 1], ![1, 0]]) *ᵥ x)) ∧
      (∀ (mu : ℚ) (v : Fin 2 → ℚ), v ≠ 0 →
        lapL (Matrix.of ![![0, 1], ![1, 0]]) *ᵥ v = mu • v → 0 ≤ mu)) := by
  refine ⟨by decide, by decide, by decide, ?_⟩
  exact lapL_rowsum_zero_and_psd (Matrix.of ![![0, 1], ![1, 0]])
    (by decide) (by decide) (by decide)

/-- Diagonal entry of a conjugated matrix as a quadratic form in the
corresponding column. -/
lemma conj_diag_entry {p : ℕ} (M A : Matrix (Fin p) (Fin p) ℚ) (i : Fin p) :
    (Aᵀ * M * A) i i = (fun k => A k i) ⬝ᵥ (M *ᵥ fun k => A k i) := by
  simp only [Matrix.mul_apply, Matrix.transpose_apply, Matrix.dotProduct, Matrix.mulVec,
    Finset.sum_mul, Finset.mul_sum]
  rw [Finset.sum_comm]
  exact Finset.sum_congr rfl fun k _ => Finset.sum_congr rfl fun l _ => by ring

/-- Under an exact orthonormal eigendecomposition of the Laplacian, the
matrix of eigenvalues is recovered by conjugation. -/
lemma diag_eq_conj {p : ℕ} {W evecs : Matrix (Fin p) (Fin p) ℚ} {evals : Fin p → ℚ}
    (horth : evecsᵀ * evecs = 1)
    (hrecon : evecs * Matrix.diagonal evals * evecsᵀ = lapL W) :
    Matrix.diagonal evals = evecsᵀ * lapL W * evecs := by
  rw [← hrecon]
  have h1 : evecsᵀ * (evecs * Matrix.diagonal evals * evecsᵀ) * evecs
      = evecsᵀ * evecs * Matrix.diagonal evals * (evecsᵀ * evecs) := by
    simp only [Matrix.mul_assoc]
  rw [h1, horth]
  simp

/-- Exact eigendecomposition of the Laplacian of a symmetric non-negative
adjacency matrix has non-negative eigenvalues. -/
lemma evals_nonneg {p : ℕ} {W evecs : Matrix (Fin p) (Fin p) ℚ} {evals : Fin p → ℚ}
    (hsym : Wᵀ = W) (hnn : ∀ i j, 0 ≤ W i j)
    (horth : evecsᵀ * evecs = 1)
    (hrecon : evecs * Matrix.diagonal evals * evecsᵀ = lapL W) (i : Fin p) :
    0 ≤ evals i := by
  have hd := diag_eq_conj horth hrecon
  have : evals i = (evecsᵀ * lapL W * evecs) i i := by
    rw [← hd, Matrix.diagonal_apply_eq]
  rw [this, conj_diag_entry]
  exact quadform_nonneg W hsym hnn _

/-- Claim C2: for every symmetric non-negative adjacency matrix `W` with
zero diagonal, the spectral builder output `S = diag(√(clamped evals)) Uᵀ`
(shape `p × p`) satisfies `Sᵀ S = L` exactly, hence every absolute entry of
`Sᵀ S - L` lies below any positive tolerance.  The external eigensolver is
modelled by its contract: orthonormal eigenvectors and exact
reconstruction of `L`; the abstract square root squares back to its
(non-negative, clamped) argument. -/
theorem spectral_sqrt_gram_exact {p : ℕ} (W evecs : Matrix (Fin p) (Fin p) ℚ)
    (evals : Fin p → ℚ) (rsqrt : ℚ → ℚ)
    (hsym : Wᵀ = W) (hnn : ∀ i j, 0 ≤ W i j) (_hdiag : ∀ i, W i i = 0)
    (horth : evecsᵀ * evecs = 1)
    (hrecon : evecs * Matrix.diagonal evals * evecsᵀ = lapL W)
    (hsq : ∀ i, rsqrt (clampEvals evals i) ^ 2 = clampEvals evals i) :
    (lapSqrtS rsqrt evals evecs)ᵀ * lapSqrtS rsqrt evals evecs = lapL W ∧
    ∀ tol : ℚ, 0 < tol → ∀ i j,
      |((lapSqrtS rsqrt evals evecs)ᵀ * lapSqrtS rsqrt evals evecs) i j - lapL W i j| < tol := by
  have hclamp : clampEvals evals = evals := by
    funext i
    exact max_eq_right (evals_nonneg hsym hnn horth hrecon i)
  have hsqd : Matrix.diagonal (fun i => rsqrt (clampEvals evals i))
      * Matrix.diagonal (fun i => rsqrt (clampEvals evals i)) = Matrix.diagonal evals := by
    have hmul : (fun i => rsqrt (clampEvals evals i) * rsqrt (clampEvals evals i))
        = evals := by
      funext i
      show rsqrt (clampEvals evals i) * rsqrt (clampEvals evals i) = evals i
      have h := hsq i
      rw [hclamp] at h
      calc rsqrt (clampEvals evals i) * rsqrt (clampEvals evals i)
          = rsqrt (evals i) * rsqrt (evals i) := by rw [hclamp]
        _ = rsqrt (evals i) ^ 2 := by ring
        _ = evals i := h
    rw [Matrix.diagonal_mul_diagonal, hmul]
  have hgram : (lapSqrtS rsqrt evals evecs)ᵀ * lapSqrtS rsqrt evals evecs = lapL W := by
    unfold lapSqrtS
    calc (Matrix.diagonal (fun i => rsqrt (clampEvals evals i)) * evecsᵀ)ᵀ
          * (Matrix.diagonal (fun i => rsqrt (clampEvals evals i)) * evecsᵀ)
        = evecs * (Matrix.diagonal (fun i => rsqrt (clampEvals evals i))
            * Matrix.diagonal (fun i => rsqrt (clampEvals evals i))) * evecsᵀ := by
          rw [Matrix.transpose_mul, Matrix.transpose_transpose, Matrix.diagonal_transpose]
          simp only [Matrix.mul_assoc]
      _ = evecs * Matrix.diagonal evals * evecsᵀ := by rw [hsqd]
      _ = lapL W := hrecon
  refine ⟨hgram, fun tol htol i j => ?_⟩
  rw [hgram]
  simpa using htol

/-- Laplacian of the all-zero adjacency matrix is the zero matrix. -/
lemma lapL_zero {p : ℕ} : lapL (0 : Matrix (Fin p) (Fin p) ℚ) = 0 := by
  unfold lapL degree
  simp

/-- Witness for C2: the empty graph on two vertices, identity eigenbasis,
zero eigenvalues, and the concrete rational square root. -/
theorem spectral_sqrt_gram_exact_witness :
    ((0 : Matrix (Fin 2) (Fin 2) ℚ)ᵀ = 0 ∧
      (∀ i j, (0 : ℚ) ≤ (0 : Matrix (Fin 2) (Fin 2) ℚ) i j) ∧
      (∀ i, (0 : Matrix (Fin 2) (Fin 2) ℚ) i i = 0) ∧
      ((1 : Matrix (Fin 2) (Fin 2) ℚ)ᵀ * 1 = 1) ∧
      ((1 : Matrix (Fin 2) (Fin 2) ℚ) * Matrix.diagonal (fun _ => 0) * (1 : Matrix (Fin 2) (Fin 2) ℚ)ᵀ
        = lapL 0) ∧
      (∀ i : Fin 2, ratSqrt (clampEvals (fun _ => (0 : ℚ)) i) ^ 2
        = clampEvals (fun _ => (0 : ℚ)) i)) ∧
    (lapSqrtS ratSqrt (fun _ => (0 : ℚ)) 1)ᵀ * lapSqrtS ratSqrt (fun _ => (0 : ℚ)) 1
      = lapL (0 : Matrix (Fin 2) (Fin 2) ℚ) := by
  have h1 : (0 : Matrix (Fin 2) (Fin 2) ℚ)ᵀ = 0 := by simp
  have h2 : ∀ i j, (0 : ℚ) ≤ (0 : Matrix (Fin 2) (Fin 2) ℚ) i j := by simp
  have h3 : ∀ i, (0 : Matrix (Fin 2) (Fin 2) ℚ) i i = 0 := by simp
  have h4 : (1 : Matrix (Fin 2) (Fin 2) ℚ)ᵀ * 1 = 1 := by simp
  have h5 : (1 : Matrix (Fin 2) (Fin 2) ℚ) * Matrix.diagonal (fun _ => 0) * (1 : Matrix (Fin 2) (Fin 2) ℚ)ᵀ
      = lapL 0 := by
    rw [lapL_zero]
    simp
  have h6 : ∀ i : Fin 2, ratSqrt (clampEvals (fun _ => (0 : ℚ)) i) ^ 2
      = clampEvals (fun _ => (0 : ℚ)) i := by
    intro i
    simp [clampEvals, ratSqrt_zero]
  exact ⟨⟨h1, h2, h3, h4, h5, h6⟩,
    (spectral_sqrt_gram_exact 0 1 (fun _ => 0) ratSqrt h1 h2 h3 h4 h5 h6).1⟩

/-- Claim C4: the spectral builder clamps every eigenvalue at zero before
any square root is taken: all clamped eigenvalues are non-negative, every
entry of `S` is the square root of a clamped (non-negative) eigenvalue
times an eigenvector entry, and the output depends only on the values of
the square-root function on non-negative arguments — so a square root
undefined on negatives (NaN in floating point) is never consulted. -/
theorem spectral_clamp_before_sqrt {p : ℕ} (rsqrt rsqrt' : ℚ → ℚ)
    (evals : Fin p → ℚ) (evecs : Matrix (Fin p) (Fin p) ℚ) :
    (∀ i, 0 ≤ clampEvals evals i) ∧
    (∀ i j, lapSqrtS rsqrt evals evecs i j = rsqrt (max 0 (evals i)) * evecs j i) ∧
    ((∀ a : ℚ, 0 ≤ a → rsqrt a = rsqrt' a) →
      lapSqrtS rsqrt evals evecs = lapSqrtS rsqrt' evals evecs) := by
  refine ⟨fun i => le_max_left _ _, ?_, ?_⟩
  · intro i j
    simp [lapSqrtS, Matrix.diagonal_mul, clampEvals, Matrix.transpose_apply]
  · intro hagree
    unfold lapSqrtS
    have : (fun i => rsqrt (clampEvals evals i)) = fun i => rsqrt' (clampEvals evals i) := by
      funext i
      exact hagree _ (le_max_left _ _)
    rw [this]

/-- Witness for C4 at eigenvalues containing a negative number: the
agreement premise is discharged for `ratSqrt` against the square root of
the absolute value, which differs on negative inputs. -/
theorem spectral_clamp_before_sqrt_witness :
    ((∀ i, 0 ≤ clampEvals (![(-1), 4] : Fin 2 → ℚ) i) ∧
      (∀ i j, lapSqrtS ratSqrt (![(-1), 4] : Fin 2 → ℚ) 1 i j
        = ratSqrt (max 0 ((![(-1), 4] : Fin 2 → ℚ) i)) * (1 : Matrix (Fin 2) (Fin 2) ℚ) j i) ∧
      ((∀ a : ℚ, 0 ≤ a → ratSqrt a = ratSqrt |a|) →
        lapSqrtS ratSqrt (![(-1), 4] : Fin 2 → ℚ) 1
          = lapSqrtS (fun a => ratSqrt |a|) (![(-1), 4] : Fin 2 → ℚ) 1)) ∧
    lapSqrtS ratSqrt (![(-1), 4] : Fin 2 → ℚ) 1
      = lapSqrtS (fun a => ratSqrt |a|) (![(-1), 4] : Fin 2 → ℚ) 1 := by
  have h := spectral_clamp_before_sqrt (p := 2) ratSqrt (fun a => ratSqrt |a|) ![(-1), 4] 1
  exact ⟨h, h.2.2 (fun a ha => by rw [abs_of_nonneg ha])⟩

/-- Counterexample to claim C1: the inner Lasso solver is invoked with L1
strength `lambda1`, not `lambda1 / √(1+lambda2)`.  A probe solver that
reports the strength it receives (through the pass-through intercept)
observes `1` at `lambda1 = 1, lambda2 = 3`, whereas the claim requires
`1 / √4 = 1/2`. -/
theorem ncLasso_inner_strength_not_rescaled :
    (ncLassoFit ratSqrt (fun _ _ alpha => (fun _ => (0 : ℚ), alpha))
      (0 : Matrix (Fin 1) (Fin 1) ℚ) (0 : Matrix (Fin 1) (Fin 1) ℚ)
      (fun _ => 0) 1 3).2 = 1 ∧
    (1 : ℚ) ≠ 1 / ratSqrt (1 + 3) := by
  constructor
  · rfl
  · rw [show (1 + 3 : ℚ) = 4 by norm_num, ratSqrt_four]
    norm_num

/-- Claim C1 (amended): every fit invokes the inner solver on the design
stacking `X / √(1+λ2)` over `√λ2 · S / √(1+λ2)`, with response `y` stacked
over `q` zeros, with L1 strength `lambda1` unchanged (the alpha fixed at
inner-solver construction; not rescaled), and returns the inner
coefficients divided by `√(1+λ2)` with the intercept passed through. -/
theorem ncLassoFit_contract {n q p : ℕ} (rsqrt : ℚ → ℚ)
    (solver : Matrix (Fin n ⊕ Fin q) (Fin p) ℚ → (Fin n ⊕ Fin q → ℚ) → ℚ → (Fin p → ℚ) × ℚ)
    (S : Matrix (Fin q) (Fin p) ℚ) (X : Matrix (Fin n) (Fin p) ℚ) (y : Fin n → ℚ)
    (lambda1 lambda2 : ℚ) (_hl1 : 0 ≤ lambda1) (_hl2 : 0 ≤ lambda2) :
    (∀ i j, augmentedX rsqrt lambda2 S X (Sum.inl i) j = X i j / rsqrt (1 + lambda2)) ∧
    (∀ k j, augmentedX rsqrt lambda2 S X (Sum.inr k) j
      = rsqrt lambda2 * S k j / rsqrt (1 + lambda2)) ∧
    (∀ i, augmentedY q y (Sum.inl i) = y i) ∧
    (∀ k, augmentedY q y (Sum.inr k) = 0) ∧
    ncLassoFit rsqrt solver S X y lambda1 lambda2
      = (fun j => (solver (augmentedX rsqrt lambda2 S X) (augmentedY q y) lambda1).1 j
            / rsqrt (1 + lambda2),
          (solver (augmentedX rsqrt lambda2 S X) (augmentedY q y) lambda1).2) := by
  refine ⟨?_, ?_, fun i => rfl, fun k => rfl, rfl⟩
  · intro i j
    rw [augmentedX, Matrix.fromRows_apply_inl, Matrix.smul_apply]
    rw [smul_eq_mul, inv_mul_eq_div]
  · intro k j
    rw [augmentedX, Matrix.fromRows_apply_inr, Matrix.smul_apply]
    rw [smul_eq_mul, div_mul_eq_mul_div]

/-- Witness for the amended C1 at `lambda1 = 1, lambda2 = 3` with a probe
solver. -/
theorem ncLassoFit_contract_witness :
    (0 : ℚ) ≤ 1 ∧ (0 : ℚ) ≤ 3 ∧
    ncLassoFit ratSqrt (probeSolver (n := 1) (q := 1) (p := 1))
        0 0 (fun _ => 0) 1 3
      = (fun j => (probeSolver
            (augmentedX ratSqrt 3 (0 : Matrix (Fin 1) (Fin 1) ℚ) (0 : Matrix (Fin 1) (Fin 1) ℚ))
            (augmentedY (n := 1) 1 fun _ => 0) 1).1 j / ratSqrt (1 + 3),
          (probeSolver
            (augmentedX ratSqrt 3 (0 : Matrix (Fin 1) (Fin 1) ℚ) (0 : Matrix (Fin 1) (Fin 1) ℚ))
            (augmentedY (n := 1) 1 fun _ => 0) 1).2) :=
  ⟨by norm_num, by norm_num,
    (ncLassoFit_contract ratSqrt probeSolver 0 0 (fun _ => 0) 1 3
      (by norm_num) (by norm_num)).2.2.2.2⟩

/-- Augmentation at `lambda2 = 0` stacks `X` over the zero matrix. -/
lemma augmentedX_lambda2_zero {n q p : ℕ} (rsqrt : ℚ → ℚ)
    (S : Matrix (Fin q) (Fin p) ℚ) (X : Matrix (Fin n) (Fin p) ℚ)
    (h0 : rsqrt 0 = 0) (h1 : rsqrt 1 = 1) :
    augmentedX rsqrt 0 S X = Matrix.fromRows X 0 := by
  unfold augmentedX
  rw [show (1 + 0 : ℚ) = 1 by norm_num, h1, h0]
  simp

/-- With `lambda2 = 0` the inner objective is the plain Lasso objective. -/
lemma inner_eq_lasso_lambda2_zero {n q p : ℕ} (rsqrt : ℚ → ℚ)
    (S : Matrix (Fin q) (Fin p) ℚ) (X : Matrix (Fin n) (Fin p) ℚ) (y : Fin n → ℚ)
    (alpha : ℚ) (h0 : rsqrt 0 = 0) (h1 : rsqrt 1 = 1) (b : Fin p → ℚ) (b0 : ℚ) :
    innerObjective rsqrt 0 S X y alpha b b0 = lassoObjective X y alpha b b0 := by
  unfold innerObjective lassoObjective
  rw [augmentedX_lambda2_zero rsqrt S X h0 h1, Matrix.fromRows_mulVec]
  simp [augmentedY, Matrix.zero_mulVec]

/-- Claim C5: with `lambda2 = 0` the problem handed to the inner Lasso
solver coincides with the plain Lasso problem on `(X, y)` at the same
`lambda1` — the objectives agree at every `(b, b0)` (the synthetic rows
contribute nothing), coefficient recovery is the identity, and the two
problems have the same minimizers. -/
theorem ncLasso_lambda2_zero_plain_lasso {n q p : ℕ} (rsqrt : ℚ → ℚ)
    (S : Matrix (Fin q) (Fin p) ℚ) (X : Matrix (Fin n) (Fin p) ℚ) (y : Fin n → ℚ)
    (lambda1 : ℚ) (_hl1 : 0 ≤ lambda1) (h0 : rsqrt 0 = 0) (h1 : rsqrt 1 = 1) :
    (∀ b b0, innerObjective rsqrt 0 S X y lambda1 b b0 = lassoObjective X y lambda1 b b0) ∧
    (∀ b : Fin p → ℚ, recoverCoef rsqrt 0 b = b) ∧
    (∀ b b0, (∀ b' b0', innerObjective rsqrt 0 S X y lambda1 b b0
        ≤ innerObjective rsqrt 0 S X y lambda1 b' b0')
      ↔ (∀ b' b0', lassoObjective X y lambda1 b b0 ≤ lassoObjective X y lambda1 b' b0')) := by
  have ha : ∀ b b0, innerObjective rsqrt 0 S X y lambda1 b b0
      = lassoObjective X y lambda1 b b0 :=
    inner_eq_lasso_lambda2_zero rsqrt S X y lambda1 h0 h1
  have hb : ∀ b : Fin p → ℚ, recoverCoef rsqrt 0 b = b := by
    intro b
    funext j
    rw [recoverCoef, show (1 + 0 : ℚ) = 1 by norm_num, h1, div_one]
  refine ⟨ha, hb, fun b b0 => ?_⟩
  constructor
  · intro h b' b0'
    rw [← ha b b0, ← ha b' b0']
    exact h b' b0'
  · intro h b' b0'
    rw [ha b b0, ha b' b0']
    exact h b' b0'

/-- Witness for C5 at a concrete one-sample, one-feature instance. -/
theorem ncLasso_lambda2_zero_plain_lasso_witness :
    (0 : ℚ) ≤ 1 ∧ ratSqrt 0 = 0 ∧ ratSqrt 1 = 1 ∧
    ((∀ b b0, innerObjective ratSqrt 0 (0 : Matrix (Fin 1) (Fin 1) ℚ)
        (0 : Matrix (Fin 1) (Fin 1) ℚ) (fun _ => 0) 1 b b0
        = lassoObjective (0 : Matrix (Fin 1) (Fin 1) ℚ) (fun _ => 0) 1 b b0) ∧
      (∀ b : Fin 1 → ℚ, recoverCoef ratSqrt 0 b = b) ∧
      (∀ b b0, (∀ b' b0', innerObjective ratSqrt 0 (0 : Matrix (Fin 1) (Fin 1) ℚ)
          (0 : Matrix (Fin 1) (Fin 1) ℚ) (fun _ => 0) 1 b b0
          ≤ innerObjective ratSqrt 0 (0 : Matrix (Fin 1) (Fin 1) ℚ)
            (0 : Matrix (Fin 1) (Fin 1) ℚ) (fun _ => 0) 1 b' b0')
        ↔ (∀ b' b0', lassoObjective (0 : Matrix (Fin 1) (Fin 1) ℚ) (fun _ => 0) 1 b b0
            ≤ lassoObjective (0 : Matrix (Fin 1) (Fin 1) ℚ) (fun _ => 0) 1 b' b0'))) := by
  refine ⟨by norm_num, ratSqrt_zero, ratSqrt_one, ?_⟩
  exact ncLasso_lambda2_zero_plain_lasso ratSqrt 0 0 (fun _ => 0) 1
    (by norm_num) ratSqrt_zero ratSqrt_one

/-- With a zero square-root matrix, the inner objective at any `lambda2`
is the plain Lasso objective with effective strength `√(1+λ2) · alpha` at
the recovered (rescaled) coefficients. -/
lemma inner_zero_S_eq_scaled_lasso {n q p : ℕ} (rsqrt : ℚ → ℚ) (lambda2 : ℚ)
    (X : Matrix (Fin n) (Fin p) ℚ) (y : Fin n → ℚ) (alpha : ℚ)
    (hs : 0 < rsqrt (1 + lambda2)) (b : Fin p → ℚ) (b0 : ℚ) :
    innerObjective rsqrt lambda2 (0 : Matrix (Fin q) (Fin p) ℚ) X y alpha b b0
      = lassoObjective X y (rsqrt (1 + lambda2) * alpha)
          ((rsqrt (1 + lambda2))⁻¹ • b) b0 := by
  have hAug : augmentedX rsqrt lambda2 (0 : Matrix (Fin q) (Fin p) ℚ) X
      = Matrix.fromRows ((rsqrt (1 + lambda2))⁻¹ • X) 0 := by
    unfold augmentedX
    rw [smul_zero]
  have hl1n : l1Norm ((rsqrt (1 + lambda2))⁻¹ • b)
      = (rsqrt (1 + lambda2))⁻¹ * l1Norm b := by
    unfold l1Norm
    rw [Finset.mul_sum]
    refine Finset.sum_congr rfl fun j _ => ?_
    rw [Pi.smul_apply, smul_eq_mul, abs_mul, abs_of_pos (inv_pos.mpr hs)]
  have hss : rsqrt (1 + lambda2) * (rsqrt (1 + lambda2))⁻¹ = 1 :=
    mul_inv_cancel₀ (ne_of_gt hs)
  have hsums : ∀ i, (((rsqrt (1 + lambda2))⁻¹ • X) *ᵥ b) i
      = (X *ᵥ ((rsqrt (1 + lambda2))⁻¹ • b)) i := by
    intro i
    show (∑ j, ((rsqrt (1 + lambda2))⁻¹ • X) i j * b j)
      = ∑ j, X i j * ((rsqrt (1 + lambda2))⁻¹ • b) j
    refine Finset.sum_congr rfl fun j _ => ?_
    rw [Matrix.smul_apply, Pi.smul_apply, smul_eq_mul, smul_eq_mul]
    ring
  have key1 : (∑ i, (augmentedY q y (Sum.inl i)
        - (augmentedX rsqrt lambda2 (0 : Matrix (Fin q) (Fin p) ℚ) X *ᵥ b) (Sum.inl i) - b0) ^ 2)
      = ∑ i, (y i - (X *ᵥ ((rsqrt (1 + lambda2))⁻¹ • b)) i - b0) ^ 2 := by
    refine Finset.sum_congr rfl fun i _ => ?_
    rw [hAug, Matrix.fromRows_mulVec]
    show (y i - (((rsqrt (1 + lambda2))⁻¹ • X) *ᵥ b) i - b0) ^ 2
      = (y i - (X *ᵥ ((rsqrt (1 + lambda2))⁻¹ • b)) i - b0) ^ 2
    rw [hsums i]
  have key2 : (∑ k, (augmentedY q y (Sum.inr k)
        - (augmentedX rsqrt lambda2 (0 : Matrix (Fin q) (Fin p) ℚ) X *ᵥ b) (Sum.inr k)) ^ 2)
      = 0 := by
    refine Finset.sum_eq_zero fun k _ => ?_
    rw [hAug, Matrix.fromRows_mulVec]
    show ((0 : ℚ) - ((0 : Matrix (Fin q) (Fin p) ℚ) *ᵥ b) k) ^ 2 = 0
    rw [Matrix.zero_mulVec]
    norm_num
  have h3 : rsqrt (1 + lambda2) * alpha * ((rsqrt (1 + lambda2))⁻¹ * l1Norm b)
      = alpha * l1Norm b := by
    calc rsqrt (1 + lambda2) * alpha * ((rsqrt (1 + lambda2))⁻¹ * l1Norm b)
        = rsqrt (1 + lambda2) * (rsqrt (1 + lambda2))⁻¹ * (alpha * l1Norm b) := by ring
      _ = alpha * l1Norm b := by rw [hss, one_mul]
  unfold innerObjective lassoObjective
  rw [key1, key2, hl1n, h3]
  ring

/-- Claim C8 (amended): for the all-zero adjacency matrix the Laplacian
and its spectral square root are zero; the ncLasso fit at any `lambda2`
then reduces to a plain Lasso on `(X, y)` — but with effective L1 strength
`√(1+λ2) · lambda1` (because the design is scaled by `1/√(1+λ2)` while the
inner alpha stays `lambda1`), the recovered coefficients being the inner
ones divided by `√(1+λ2)`; it coincides with the `lambda2 = 0` fit only
when `√(1+λ2) = 1`. -/
theorem allZero_W_reduction {n p : ℕ} (rsqrt : ℚ → ℚ) (evals : Fin p → ℚ)
    (evecs : Matrix (Fin p) (Fin p) ℚ) (X : Matrix (Fin n) (Fin p) ℚ) (y : Fin n → ℚ)
    (lambda1 lambda2 : ℚ)
    (horth : evecsᵀ * evecs = 1)
    (hrecon : evecs * Matrix.diagonal evals * evecsᵀ = lapL (0 : Matrix (Fin p) (Fin p) ℚ))
    (h0 : rsqrt 0 = 0) (hs : 0 < rsqrt (1 + lambda2)) :
    lapL (0 : Matrix (Fin p) (Fin p) ℚ) = 0 ∧
    lapSqrtS rsqrt evals evecs = 0 ∧
    (∀ b b0, innerObjective rsqrt lambda2 (lapSqrtS rsqrt evals evecs) X y lambda1 b b0
      = lassoObjective X y (rsqrt (1 + lambda2) * lambda1)
          ((rsqrt (1 + lambda2))⁻¹ • b) b0) ∧
    (∀ b : Fin p → ℚ, recoverCoef rsqrt lambda2 b = (rsqrt (1 + lambda2))⁻¹ • b) := by
  have hevals : ∀ i, evals i = 0 := by
    have hd := diag_eq_conj horth hrecon
    rw [lapL_zero] at hd
    simp only [Matrix.mul_zero, Matrix.zero_mul] at hd
    intro i
    have := congrFun (congrFun hd i) i
    simpa [Matrix.diagonal_apply_eq] using this
  have hS0 : lapSqrtS rsqrt evals evecs = 0 := by
    funext i j
    show (Matrix.diagonal (fun i => rsqrt (clampEvals evals i)) * evecsᵀ) i j = 0
    rw [Matrix.diagonal_mul]
    have : clampEvals evals i = 0 := by
      unfold clampEvals
      rw [hevals i]
      simp
    rw [this, h0, zero_mul]
  refine ⟨lapL_zero, hS0, ?_, ?_⟩
  · intro b b0
    rw [hS0]
    exact inner_zero_S_eq_scaled_lasso rsqrt lambda2 X y lambda1 hs b b0
  · intro b
    funext j
    rw [recoverCoef]
    rw [Pi.smul_apply, smul_eq_mul, div_eq_inv_mul]

/-- Witness for the amended C8 at `lambda2 = 3` on a one-feature instance. -/
theorem allZero_W_reduction_witness :
    ((1 : Matrix (Fin 1) (Fin 1) ℚ)ᵀ * 1 = 1 ∧
      (1 : Matrix (Fin 1) (Fin 1) ℚ) * Matrix.diagonal (fun _ => 0)
          * (1 : Matrix (Fin 1) (Fin 1) ℚ)ᵀ = lapL 0 ∧
      ratSqrt 0 = 0 ∧ 0 < ratSqrt (1 + 3)) ∧
    (lapL (0 : Matrix (Fin 1) (Fin 1) ℚ) = 0 ∧
      lapSqrtS ratSqrt (fun _ => (0 : ℚ)) (1 : Matrix (Fin 1) (Fin 1) ℚ) = 0 ∧
      (∀ b b0, innerObjective ratSqrt 3
          (lapSqrtS ratSqrt (fun _ => (0 : ℚ)) (1 : Matrix (Fin 1) (Fin 1) ℚ))
          (0 : Matrix (Fin 1) (Fin 1) ℚ) (fun _ => 0) 1 b b0
        = lassoObjective (0 : Matrix (Fin 1) (Fin 1) ℚ) (fun _ => 0) (ratSqrt (1 + 3) * 1)
            ((ratSqrt (1 + 3))⁻¹ • b) b0) ∧
      (∀ b : Fin 1 → ℚ, recoverCoef ratSqrt 3 b = (ratSqrt (1 + 3))⁻¹ • b)) := by
  have h1 : (1 : Matrix (Fin 1) (Fin 1) ℚ)ᵀ * 1 = 1 := by simp
  have h2 : (1 : Matrix (Fin 1) (Fin 1) ℚ) * Matrix.diagonal (fun _ => 0)
      * (1 : Matrix (Fin 1) (Fin 1) ℚ)ᵀ = lapL 0 := by
    rw [lapL_zero]
    simp
  have h4 : (0 : ℚ) < ratSqrt (1 + 3) := by
    rw [show (1 + 3 : ℚ) = 4 by norm_num, ratSqrt_four]
    norm_num
  exact ⟨⟨h1, h2, ratSqrt_zero, h4⟩,
    allZero_W_reduction ratSqrt (fun _ => 0) 1 0 (fun _ => 0) 1 3 h1 h2 ratSqrt_zero h4⟩

/-- Closed form of the plain Lasso objective on `(Xex, yex)`. -/
lemma lasso_eval_Xex (alpha : ℚ) (c : Fin 1 → ℚ) (b0 : ℚ) :
    lassoObjective Xex yex alpha c b0
      = (1 - c 0 - b0) ^ 2 + (-1 + c 0 - b0) ^ 2 + alpha * |c 0| := by
  unfold lassoObjective l1Norm
  rw [Fin.sum_univ_two, Fin.sum_univ_one]
  have h0 : (Xex *ᵥ c) 0 = c 0 := by
    show ∑ j, Xex 0 j * c j = c 0
    rw [Fin.sum_univ_one]
    show Xex 0 0 * c 0 = c 0
    rw [show Xex 0 0 = 1 by rfl, one_mul]
  have h1 : (Xex *ᵥ c) 1 = -c 0 := by
    show ∑ j, Xex 1 j * c j = -c 0
    rw [Fin.sum_univ_one]
    show Xex 1 0 * c 0 = -c 0
    rw [show Xex 1 0 = -1 by rfl]
    ring
  rw [h0, h1, show yex 0 = 1 by rfl, show yex 1 = -1 by rfl]
  ring

/-- Counterexample to claim C8: on the all-zero graph (square root `S = 0`,
here given directly as the zero matrix, which equals the spectral square
root of the zero Laplacian), the inner problem at `lambda2 = 3` has the
unique minimizer `(1, 0)` while the problem at `lambda2 = 0` has the
unique minimizer `(3/4, 0)`; the recovered coefficients are `1/2` and
`3/4` respectively — so a fit at `lambda2 = 3` does not behave identically
to a fit at `lambda2 = 0` on the same `(X, y, lambda1 = 1)`, for any inner
solver honoring the least-squares-plus-L1 contract. -/
theorem ncLasso_lambda2_not_inert_on_zero_graph :
    (∀ (b : Fin 1 → ℚ) (b0 : ℚ),
      innerObjective ratSqrt 3 (0 : Matrix (Fin 1) (Fin 1) ℚ) Xex yex 1 (fun _ => 1) 0
        ≤ innerObjective ratSqrt 3 (0 : Matrix (Fin 1) (Fin 1) ℚ) Xex yex 1 b b0) ∧
    (∀ (b : Fin 1 → ℚ) (b0 : ℚ),
      innerObjective ratSqrt 3 (0 : Matrix (Fin 1) (Fin 1) ℚ) Xex yex 1 b b0
        = innerObjective ratSqrt 3 (0 : Matrix (Fin 1) (Fin 1) ℚ) Xex yex 1 (fun _ => 1) 0
      → b 0 = 1 ∧ b0 = 0) ∧
    (∀ (b : Fin 1 → ℚ) (b0 : ℚ),
      innerObjective ratSqrt 0 (0 : Matrix (Fin 1) (Fin 1) ℚ) Xex yex 1 (fun _ => 3/4) 0
        ≤ innerObjective ratSqrt 0 (0 : Matrix (Fin 1) (Fin 1) ℚ) Xex yex 1 b b0) ∧
    (∀ (b : Fin 1 → ℚ) (b0 : ℚ),
      innerObjective ratSqrt 0 (0 : Matrix (Fin 1) (Fin 1) ℚ) Xex yex 1 b b0
        = innerObjective ratSqrt 0 (0 : Matrix (Fin 1) (Fin 1) ℚ) Xex yex 1 (fun _ => 3/4) 0
      → b 0 = 3/4 ∧ b0 = 0) ∧
    recoverCoef ratSqrt 3 (fun _ : Fin 1 => (1 : ℚ)) 0 = 1/2 ∧
    recoverCoef ratSqrt 0 (fun _ : Fin 1 => (3/4 : ℚ)) 0 = 3/4 ∧
    (1/2 : ℚ) ≠ 3/4 := by
  have hr4 : ratSqrt (1 + 3) = 2 := by
    rw [show (1 + 3 : ℚ) = 4 by norm_num, ratSqrt_four]
  have hs4 : (0 : ℚ) < ratSqrt (1 + 3) := by
    rw [hr4]
    norm_num
  have e3 : ∀ (b : Fin 1 → ℚ) (b0 : ℚ),
      innerObjective ratSqrt 3 (0 : Matrix (Fin 1) (Fin 1) ℚ) Xex yex 1 b b0
        = (1 - 2⁻¹ * b 0 - b0) ^ 2 + (-1 + 2⁻¹ * b 0 - b0) ^ 2 + |b 0| := by
    intro b b0
    rw [inner_zero_S_eq_scaled_lasso ratSqrt 3 Xex yex 1 hs4 b b0,
      lasso_eval_Xex (ratSqrt (1 + 3) * 1) ((ratSqrt (1 + 3))⁻¹ • b) b0, hr4]
    simp only [Pi.smul_apply, smul_eq_mul]
    rw [abs_mul, show |(2 : ℚ)⁻¹| = 2⁻¹ from abs_of_pos (by norm_num)]
    ring
  have e0 : ∀ (b : Fin 1 → ℚ) (b0 : ℚ),
      innerObjective ratSqrt 0 (0 : Matrix (Fin 1) (Fin 1) ℚ) Xex yex 1 b b0
        = (1 - b 0 - b0) ^ 2 + (-1 + b 0 - b0) ^ 2 + |b 0| := by
    intro b b0
    rw [inner_eq_lasso_lambda2_zero ratSqrt (0 : Matrix (Fin 1) (Fin 1) ℚ) Xex yex 1
      ratSqrt_zero ratSqrt_one b b0, lasso_eval_Xex 1 b b0]
    ring
  refine ⟨?_, ?_, ?_, ?_, ?_, ?_, by norm_num⟩
  · intro b b0
    rw [e3 b b0, e3 (fun _ => 1) 0]
    rcases abs_cases (b 0) with ⟨ha, hb⟩ | ⟨ha, hb⟩ <;> rw [ha] <;>
      simp only [abs_one] <;> nlinarith [sq_nonneg (b 0 - 1), sq_nonneg b0, sq_nonneg (b 0)]
  · intro b b0 h
    rw [e3 b b0, e3 (fun _ => 1) 0] at h
    simp only [abs_one] at h
    rcases abs_cases (b 0) with ⟨ha, hb⟩ | ⟨ha, hb⟩
    · rw [ha] at h
      have h1 : (b 0 - 1) ^ 2 ≤ 0 := by nlinarith [sq_nonneg b0]
      have h2 : (b 0 - 1) ^ 2 = 0 := le_antisymm h1 (sq_nonneg _)
      have h3 : b 0 - 1 = 0 := by
        exact (pow_eq_zero_iff (by norm_num)).mp h2
      have h4 : b0 ^ 2 ≤ 0 := by nlinarith [sq_nonneg (b 0 - 1)]
      have h5 : b0 ^ 2 = 0 := le_antisymm h4 (sq_nonneg _)
      have h6 : b0 = 0 := (pow_eq_zero_iff (by norm_num)).mp h5
      exact ⟨by linarith, h6⟩
    · rw [ha] at h
      exfalso
      nlinarith [sq_nonneg (b 0), sq_nonneg b0]
  · intro b b0
    rw [e0 b b0, e0 (fun _ => 3/4) 0,
      show |(3/4 : ℚ)| = 3/4 from abs_of_pos (by norm_num)]
    rcases abs_cases (b 0) with ⟨ha, hb⟩ | ⟨ha, hb⟩ <;> rw [ha] <;>
      nlinarith [sq_nonneg (b 0 - 3/4), sq_nonneg b0, sq_nonneg (b 0)]
  · intro b b0 h
    rw [e0 b b0, e0 (fun _ => 3/4) 0,
      show |(3/4 : ℚ)| = 3/4 from abs_of_pos (by norm_num)] at h
    rcases abs_cases (b 0) with ⟨ha, hb⟩ | ⟨ha, hb⟩
    · rw [ha] at h
      have h1 : (b 0 - 3/4) ^ 2 ≤ 0 := by nlinarith [sq_nonneg b0]
      have h2 : (b 0 - 3/4) ^ 2 = 0 := le_antisymm h1 (sq_nonneg _)
      have h3 : b 0 - 3/4 = 0 := (pow_eq_zero_iff (by norm_num)).mp h2
      have h4 : b0 ^ 2 ≤ 0 := by nlinarith [sq_nonneg (b 0 - 3/4)]
      have h5 : b0 ^ 2 = 0 := le_antisymm h4 (sq_nonneg _)
      have h6 : b0 = 0 := (pow_eq_zero_iff (by norm_num)).mp h5
      exact ⟨by linarith, h6⟩
    · rw [ha] at h
      exfalso
      nlinarith [sq_nonneg (b 0), sq_nonneg b0]
  · show (1 : ℚ) / ratSqrt (1 + 3) = 1/2
    rw [hr4]
  · show (3/4 : ℚ) / ratSqrt (1 + 0) = 3/4
    rw [show (1 + 0 : ℚ) = 1 by norm_num, ratSqrt_one]
    norm_num

/-- Counterexample to claim C9: the builder performs no symmetry check.
The concrete non-symmetric `W₀ = [[0,1],[0,0]]` is accepted and processed
to a normal result (`Except.ok`), not a `ShapeError`. -/
theorem spectralBuilder_accepts_nonsymmetric :
    (Matrix.of ![![0, 1], ![0, 0]] : Matrix (Fin 2) (Fin 2) ℚ)ᵀ
        ≠ Matrix.of ![![0, 1], ![0, 0]] ∧
    spectralBuilder (fun M => (fun i => M i i, 1)) ratSqrt
        (Matrix.of ![![0, 1], ![0, 0]] : Matrix (Fin 2) (Fin 2) ℚ)
      = Except.ok (lapSqrtS ratSqrt
          (fun i => lapL (Matrix.of ![![0, 1], ![0, 0]] : Matrix (Fin 2) (Fin 2) ℚ) i i) 1) := by
  constructor
  · intro h
    have := congrFun (congrFun h 0) 1
    simp [Matrix.transpose_apply] at this
  · rfl

/-- Claim C9 (amended): the repository's spectral builder is straight-line
code with no validation and no error branch of its own: for every input
`W` (square by the ambient shape discipline) and every eigensolver result
it returns `Except.ok` of the clamped spectral square root; eigensolver
failure would be the external library's error, and the notebook's Gram
check only prints the error magnitude, it never raises. -/
theorem spectralBuilder_total_no_error {p : ℕ}
    (eigh : Matrix (Fin p) (Fin p) ℚ → (Fin p → ℚ) × Matrix (Fin p) (Fin p) ℚ)
    (rsqrt : ℚ → ℚ) (W : Matrix (Fin p) (Fin p) ℚ) :
    spectralBuilder eigh rsqrt W
      = Except.ok (lapSqrtS rsqrt (eigh (lapL W)).1 (eigh (lapL W)).2) := rfl

/-- Claim C6: `predict` on a fitted model with matching feature counts is
exactly the linear map `X · β + intercept`, row by row; calling it before
`fit` (no coefficients or no intercept stored) is a `ShapeError`, and so
is a feature-count mismatch. -/
theorem ncPredict_contract (st : NcLasso) (c : List ℚ) (b : ℚ) (X : List (List ℚ)) :
    (st.coef_ = some c → st.intercept_ = some b → (∀ r ∈ X, r.length = c.length) →
      ncPredict st X = Except.ok (X.map fun row => dotL row c + b)) ∧
    (st.coef_ = none → ncPredict st X = Except.error EstimatorError.shapeError) ∧
    (st.intercept_ = none → ncPredict st X = Except.error EstimatorError.shapeError) ∧
    (st.coef_ = some c → (∃ r ∈ X, r.length ≠ c.length) →
      ncPredict st X = Except.error EstimatorError.shapeError) := by
  refine ⟨?_, ?_, ?_, ?_⟩
  · intro hc hb hall
    have hbool : X.all (fun row => row.length == c.length) = true :=
      List.all_eq_true.mpr fun r hr => beq_iff_eq.mpr (hall r hr)
    unfold ncPredict
    rw [hc, hb]
    simp only [hbool, if_true]
  · intro hc
    unfold ncPredict
    rw [hc]
  · intro hi
    unfold ncPredict
    rw [hi]
    rcases st.coef_ with _ | c'
    · rfl
    · rfl
  · intro hc hex
    obtain ⟨r, hr, hne⟩ := hex
    have hbool : X.all (fun row => row.length == c.length) = false := by
      rcases hb : X.all (fun row => row.length == c.length) with _ | _
      · rfl
      · exact absurd (beq_iff_eq.mp (List.all_eq_true.mp hb r hr)) hne
    unfold ncPredict
    rw [hc]
    rcases hi : st.intercept_ with _ | b'
    · rfl
    · simp [hbool]

/-- Witness for C6 on a fitted one-feature model. -/
theorem ncPredict_contract_witness :
    ((NcLasso.mk [] 1 1 (some 1) (some [2]) (some 3)).coef_ = some [2] ∧
      (NcLasso.mk [] 1 1 (some 1) (some [2]) (some 3)).intercept_ = some 3 ∧
      (∀ r ∈ [[(4 : ℚ)]], r.length = [(2 : ℚ)].length)) ∧
    ncPredict (NcLasso.mk [] 1 1 (some 1) (some [2]) (some 3)) [[(4 : ℚ)]]
      = Except.ok ([[(4 : ℚ)]].map fun row => dotL row [2] + 3) := by
  have hall : ∀ r ∈ [[(4 : ℚ)]], r.length = [(2 : ℚ)].length := by
    intro r hr
    simp only [List.mem_singleton] at hr
    rw [hr]
    rfl
  exact ⟨⟨rfl, rfl, hall⟩,
    (ncPredict_contract (NcLasso.mk [] 1 1 (some 1) (some [2]) (some 3)) [2] 3
      [[(4 : ℚ)]]).1 rfl rfl hall⟩

/-- Claim C7: a `fit` call whose shapes do not match (`S` and `X` disagree
on feature count, or `X` and `y` on sample count) reports a `ShapeError`;
the outcome is identical for every inner solver and every square-root
function (nothing was delegated), and the stored coefficients and
intercept are untouched (nothing is truncated or padded). -/
theorem ncFit_shape_rejection (rsqrt rsqrt' : ℚ → ℚ)
    (solver solver' : List (List ℚ) → List ℚ → ℚ → List ℚ × ℚ)
    (st : NcLasso) (X : List (List ℚ)) (y : List ℚ)
    (hmis : ncols st.LapSqrt ≠ ncols X ∨ X.length ≠ y.length) :
    (ncFit rsqrt solver st X y).2 = some EstimatorError.shapeError ∧
    ncFit rsqrt solver st X y = ncFit rsqrt' solver' st X y ∧
    (ncFit rsqrt solver st X y).1.coef_ = st.coef_ ∧
    (ncFit rsqrt solver st X y).1.intercept_ = st.intercept_ := by
  have e : ∀ (r : ℚ → ℚ) (s : List (List ℚ) → List ℚ → ℚ → List ℚ × ℚ),
      ncFit r s st X y = ({ st with lasso := some st.lambda1 }, some EstimatorError.shapeError) := by
    intro r s
    unfold ncFit
    rw [if_pos hmis]
  rw [e rsqrt solver, e rsqrt' solver']
  exact ⟨rfl, rfl, rfl, rfl⟩

/-- Witness for C7 at the spec's example shapes: `X` is `100 × 50`, `S`
has `60` columns. -/
theorem ncFit_shape_rejection_witness :
    (ncols (NcLasso.mk [List.replicate 60 0] 1 1 none none none).LapSqrt
        ≠ ncols (List.replicate 100 (List.replicate 50 (0 : ℚ)))
      ∨ (List.replicate 100 (List.replicate 50 (0 : ℚ))).length
        ≠ (List.replicate 100 (0 : ℚ)).length) ∧
    ((ncFit ratSqrt (fun _ _ _ => ([], 0)) (NcLasso.mk [List.replicate 60 0] 1 1 none none none)
        (List.replicate 100 (List.replicate 50 (0 : ℚ))) (List.replicate 100 0)).2
      = some EstimatorError.shapeError ∧
      ncFit ratSqrt (fun _ _ _ => ([], 0)) (NcLasso.mk [List.replicate 60 0] 1 1 none none none)
          (List.replicate 100 (List.replicate 50 (0 : ℚ))) (List.replicate 100 0)
        = ncFit (fun _ => 0) (fun _ _ a => ([a], a))
            (NcLasso.mk [List.replicate 60 0] 1 1 none none none)
            (List.replicate 100 (List.replicate 50 (0 : ℚ))) (List.replicate 100 0) ∧
      (ncFit ratSqrt (fun _ _ _ => ([], 0)) (NcLasso.mk [List.replicate 60 0] 1 1 none none none)
          (List.replicate 100 (List.replicate 50 (0 : ℚ))) (List.replicate 100 0)).1.coef_
        = (NcLasso.mk [List.replicate 60 0] 1 1 none none none).coef_ ∧
      (ncFit ratSqrt (fun _ _ _ => ([], 0)) (NcLasso.mk [List.replicate 60 0] 1 1 none none none)
          (List.replicate 100 (List.replicate 50 (0 : ℚ))) (List.replicate 100 0)).1.intercept_
        = (NcLasso.mk [List.replicate 60 0] 1 1 none none none).intercept_) := by
  have hmis : ncols (NcLasso.mk [List.replicate 60 0] 1 1 none none none).LapSqrt
      ≠ ncols (List.replicate 100 (List.replicate 50 (0 : ℚ)))
      ∨ (List.replicate 100 (List.replicate 50 (0 : ℚ))).length
        ≠ (List.replicate 100 (0 : ℚ)).length := by
    left
    decide
  exact ⟨hmis, ncFit_shape_rejection ratSqrt (fun _ => 0) (fun _ _ _ => ([], 0))
    (fun _ _ a => ([a], a)) (NcLasso.mk [List.replicate 60 0] 1 1 none none none)
    (List.replicate 100 (List.replicate 50 (0 : ℚ))) (List.replicate 100 0) hmis⟩

/-- Counterexample to claim C10: after a failing `fit` the estimator is
not left unconfigured — the fresh inner Lasso solver assigned to
`self.lasso` at the top of `fit` (a line present in the notebook skeleton,
executed before any failure point) remains observable. -/
theorem ncFit_failure_leaves_solver_state :
    (ncFit ratSqrt (fun _ _ _ => ([], 0)) (NcLasso.mk [[0]] 1 1 none none none) [] []).2
        = some EstimatorError.shapeError ∧
    (ncFit ratSqrt (fun _ _ _ => ([], 0)) (NcLasso.mk [[0]] 1 1 none none none) [] []).1.lasso
        ≠ none := by
  constructor
  · rfl
  · have h : (ncFit ratSqrt (fun _ _ _ => ([], 0))
        (NcLasso.mk [[0]] 1 1 none none none) [] []).1.lasso = some 1 := rfl
    rw [h]
    exact Option.some_ne_none 1

/-- Claim C10 (amended): on a fresh estimator, `fit` either succeeds —
returning no error and storing both coefficients and intercept — or
reports an error while leaving `coef_` and `intercept_` unset; however the
fresh inner solver assigned to `self.lasso` at the start of `fit` remains
observable after a failure. -/
theorem ncFit_atomicity (rsqrt : ℚ → ℚ)
    (solver : List (List ℚ) → List ℚ → ℚ → List ℚ × ℚ)
    (st : NcLasso) (X : List (List ℚ)) (y : List ℚ)
    (hc : st.coef_ = none) (hi : st.intercept_ = none) :
    ((ncFit rsqrt solver st X y).2 = none →
      (∃ cv, (ncFit rsqrt solver st X y).1.coef_ = some cv) ∧
      (∃ iv, (ncFit rsqrt solver st X y).1.intercept_ = some iv)) ∧
    ((ncFit rsqrt solver st X y).2 ≠ none →
      (ncFit rsqrt solver st X y).1.coef_ = none ∧
      (ncFit rsqrt solver st X y).1.intercept_ = none ∧
      (ncFit rsqrt solver st X y).1.lasso = some st.lambda1) := by
  by_cases hmis : ncols st.LapSqrt ≠ ncols X ∨ X.length ≠ y.length
  · have e : ncFit rsqrt solver st X y
        = ({ st with lasso := some st.lambda1 }, some EstimatorError.shapeError) := by
      unfold ncFit
      rw [if_pos hmis]
    rw [e]
    refine ⟨fun hnone => ?_, fun _ => ⟨hc, hi, rfl⟩⟩
    exact absurd hnone (by simp)
  · have e : (ncFit rsqrt solver st X y).2 = none ∧
        (∃ cv, (ncFit rsqrt solver st X y).1.coef_ = some cv) ∧
        (∃ iv, (ncFit rsqrt solver st X y).1.intercept_ = some iv) := by
      unfold ncFit
      rw [if_neg hmis]
      dsimp only
      exact ⟨rfl, ⟨_, rfl⟩, ⟨_, rfl⟩⟩
    refine ⟨fun _ => e.2, fun hne => absurd e.1 hne⟩

/-- Witness for the amended C10 on a fresh estimator with mismatched
shapes. -/
theorem ncFit_atomicity_witness :
    ((NcLasso.mk [[0]] 1 1 none none none).coef_ = none ∧
      (NcLasso.mk [[0]] 1 1 none none none).intercept_ = none) ∧
    (((ncFit ratSqrt (fun _ _ _ => ([], 0)) (NcLasso.mk [[0]] 1 1 none none none) [] []).2 = none →
        (∃ cv, (ncFit ratSqrt (fun _ _ _ => ([], 0))
          (NcLasso.mk [[0]] 1 1 none none none) [] []).1.coef_ = some cv) ∧
        (∃ iv, (ncFit ratSqrt (fun _ _ _ => ([], 0))
          (NcLasso.mk [[0]] 1 1 none none none) [] []).1.intercept_ = some iv)) ∧
      ((ncFit ratSqrt (fun _ _ _ => ([], 0)) (NcLasso.mk [[0]] 1 1 none none none) [] []).2 ≠ none →
        (ncFit ratSqrt (fun _ _ _ => ([], 0))
          (NcLasso.mk [[0]] 1 1 none none none) [] []).1.coef_ = none ∧
        (ncFit ratSqrt (fun _ _ _ => ([], 0))
          (NcLasso.mk [[0]] 1 1 none none none) [] []).1.intercept_ = none ∧
        (ncFit ratSqrt (fun _ _ _ => ([], 0))
          (NcLasso.mk [[0]] 1 1 none none none) [] []).1.lasso
          = some (NcLasso.mk [[0]] 1 1 none none none).lambda1)) :=
  ⟨⟨rfl, rfl⟩, ncFit_atomicity ratSqrt (fun _ _ _ => ([], 0))
    (NcLasso.mk [[0]] 1 1 none none none) [] [] rfl rfl⟩

end DS3
